import Mathlib

/-!
Shallow embedding of the proxy-switch-craft extension core:
the wildcard pattern matcher (`matchWildcard`), the PAC-script generator's
per-rule host tests and decision function (`generatePacScript`), hostname
normalization (`formatPattern`), the rule service CRUD operations, the
request-monitor bookkeeping, and the chunked rule storage layer.
-/

namespace PSC

/-- Case-insensitive character comparison: the JavaScript code builds all of its
regexes with the `i` flag (`new RegExp(..., 'i')`), so a literal character in a
pattern matches a hostname character up to ASCII case. -/
def ciChar (p h : Char) : Bool := p.toLower = h.toLower

/-- Tokens of the regular expressions built by `matchWildcard` and
`generatePacScript`.  The translation chain
`.replace(/\./g,'\\.').replace(/\*/g,'.*').replace(/\?/g,'.')` produces regexes
whose atoms are: an escaped literal character (`lit`), the any-single-character
atom `.` (`any`, from `?`), and `.*` (`star`, from `*`). -/
inductive GTok where
  | lit (c : Char)
  | any
  | star
deriving DecidableEq

/-- Semantics of the regexes built by the source, at the character-list level:
`globMatch ts h` is the anchored (whole-string) match of the token list `ts`
against `h`.  `star` (= `.*`) matches any sequence of characters, which is
captured by trying the rest of the tokens on every suffix of the input. -/
def globMatch : List GTok → List Char → Bool
  | [], h => h.isEmpty
  | .lit c :: ts, h =>
    match h with
    | [] => false
    | x :: xs => ciChar c x && globMatch ts xs
  | .any :: ts, h =>
    match h with
    | [] => false
    | _ :: xs => globMatch ts xs
  | .star :: ts, h => h.tails.any (globMatch ts)

/-- Literal tokens for a domain string: in the `*.`-branch the code escapes the
dots of the domain (`domain.replace(/\./g, '\\.')`) and leaves the remaining
characters as regex literals; faithful for domains made of ordinary hostname
characters (letters, digits, `-`, `.`), which contain no other regex
metacharacters. -/
def litToks (s : List Char) : List GTok := s.map GTok.lit

/-- Compilation of a non-`*.`-prefixed pattern, mirroring
`pattern.replace(/\./g,'\\.').replace(/\*/g,'.*').replace(/\?/g,'.')`:
`*` becomes `.*`, `?` becomes `.`, everything else is a literal. -/
def compileGlob (s : List Char) : List GTok :=
  s.map fun c => if c = '*' then GTok.star else if c = '?' then GTok.any else GTok.lit c

/-- Test for `pattern.startsWith('*.')`. -/
def startsWithStarDot : List Char → Bool
  | '*' :: '.' :: _ => true
  | _ => false

/-- Characters that the embedding treats faithfully inside a domain: ordinary
hostname characters, which are not regex metacharacters. -/
def hostChar (c : Char) : Bool := c.isAlphanum || c = '-' || c = '.'

/-- The pattern matcher `matchWildcard(pattern, url)` of the background script,
after the host platform's `new URL(url).hostname` extraction (the function is
stated on the hostname).  For a `*.`-prefixed pattern the code builds
`^(.*\.)?D$` (with `D` the dot-escaped domain), which is the alternation of
`^.*\.D$` and `^D$`; otherwise it builds the anchored compiled glob
`^G$`.  All regexes carry the `i` flag. -/
def matchWildcard (pattern hostname : String) : Bool :=
  let p := pattern.data
  let h := hostname.data
  if startsWithStarDot p then
    globMatch (GTok.star :: GTok.lit '.' :: litToks (p.drop 2)) h ||
      globMatch (litToks (p.drop 2)) h
  else
    globMatch (compileGlob p) h

/-- Unanchored regex test, as performed by the generated PAC script:
`/R/.test(host)` succeeds when some substring of `host` matches `R`, which is
the anchored match of `.*R.*`. -/
def rxSearch (ts : List GTok) (h : List Char) : Bool :=
  globMatch (GTok.star :: (ts ++ [GTok.star])) h

/-- The per-rule host test emitted by `generatePacScript` into the PAC script:
the same pattern translation as `matchWildcard`, but the resulting regex is
tested with `/pattern/i.test(host)` — without `^`/`$` anchors. -/
def pacRuleTest (pattern hostname : String) : Bool :=
  let p := pattern.data
  let h := hostname.data
  if startsWithStarDot p then
    rxSearch (GTok.star :: GTok.lit '.' :: litToks (p.drop 2)) h ||
      rxSearch (litToks (p.drop 2)) h
  else
    rxSearch (compileGlob p) h

/-- A proxy rule, `{ id: string, pattern: string }`. -/
structure ProxyRule where
  id : String
  pattern : String
deriving DecidableEq

/-- The general settings record (`GeneralSettings` in `types/common`). -/
structure GeneralSettings where
  responseTimeThreshold : Nat
  proxyServerAddress : String
  proxyServerPort : Nat
  proxyServerScheme : String
  proxyUsername : String
  proxyPassword : String
deriving DecidableEq

/-- Upper-casing of a string, character by character, modelling
`String.prototype.toUpperCase` on ASCII scheme names. -/
def toUpperStr (s : String) : String := String.mk (s.data.map Char.toUpper)

/-- Decimal digits of a natural number, with explicit fuel so that the
definition is structurally recursive (the fuel `n + 1` always suffices). -/
def natToCharsAux : Nat → Nat → List Char
  | 0, _ => []
  | fuel + 1, n =>
    if n < 10 then [Nat.digitChar n]
    else natToCharsAux fuel (n / 10) ++ [Nat.digitChar (n % 10)]

/-- Decimal rendering of a natural number, modelling JavaScript template-string
interpolation of the numeric port. -/
def natToStr (n : Nat) : String := String.mk (natToCharsAux (n + 1) n)

/-- The proxy directive string built by `generatePacScript`:
`` `${scheme.toUpperCase()} ${address}:${port}` ``. -/
def proxyDirective (gs : GeneralSettings) : String :=
  toUpperStr gs.proxyServerScheme ++ " " ++ gs.proxyServerAddress ++ ":" ++
    natToStr gs.proxyServerPort

/-- Decision function of the script text returned by
`generatePacScript(generalSettings, proxyRules)`: when settings are absent or
the rule list is empty the trivial script `return "DIRECT"` is produced;
otherwise the script tries each rule's condition in rule-list order and the
first condition whose (unanchored) regex test succeeds returns the proxy
directive, falling through to `return "DIRECT"`. -/
def findProxyForURL (settings : Option GeneralSettings) (rules : List ProxyRule)
    (host : String) : String :=
  match settings with
  | none => "DIRECT"
  | some gs =>
    if rules.isEmpty then "DIRECT"
    else
      match rules.find? (fun r => pacRuleTest r.pattern host) with
      | some _ => proxyDirective gs
      | none => "DIRECT"

/-- The settings used by the spec's concrete PAC example. -/
def exSettings : GeneralSettings :=
  { responseTimeThreshold := 1000
    proxyServerAddress := "1.2.3.4"
    proxyServerPort := 8080
    proxyServerScheme := "http"
    proxyUsername := ""
    proxyPassword := "" }

/-- The rule used by the spec's concrete PAC example. -/
def exRule : ProxyRule := { id := "r1", pattern := "*.slow.com" }

/-- Split of a character list at `.` separators, modelling
`hostname.split(".")`: every `.` starts a new (possibly empty) part. -/
def splitOnDot : List Char → List (List Char)
  | [] => [[]]
  | c :: rest =>
    if c = '.' then [] :: splitOnDot rest
    else
      match splitOnDot rest with
      | [] => [[c]]
      | p :: ps => (c :: p) :: ps

/-- Joining of parts with `.` separators, modelling `parts.join(".")`. -/
def joinDots : List (List Char) → List Char
  | [] => []
  | [p] => p
  | p :: q :: ps => p ++ '.' :: joinDots (q :: ps)

/-- Test for a run of one to three decimal digits, the `\d{1,3}` groups of the
service's `IPV4PATTERN` regex. -/
def digits13 (p : List Char) : Bool :=
  decide (1 ≤ p.length) && decide (p.length ≤ 3) && p.all Char.isDigit

/-- The anchored regex `^(\d{1,3}\.){3}\d{1,3}$` (`IPV4PATTERN`) holds exactly
when the string consists of four dot-separated runs of one to three digits. -/
def ipv4Shaped (h : List Char) : Bool :=
  match splitOnDot h with
  | [a, b, c, d] => digits13 a && digits13 b && digits13 c && digits13 d
  | _ => false

/-- Test for `hostname.startsWith('[')`. -/
def headIsBracket : List Char → Bool
  | '[' :: _ => true
  | _ => false

/-- The rule service's `formatPattern`, stated on the hostname already extracted
by the host platform's `new URL(url).hostname`: IPv4-shaped hostnames and IPv6
literals (containing `:` or starting with `[`) are returned unchanged, as are
hostnames of at most two dot-separated labels; otherwise the leftmost label is
replaced by `*` and the parts are rejoined with dots. -/
def formatPattern (hostname : String) : String :=
  if ipv4Shaped hostname.data then hostname
  else if hostname.data.contains ':' || headIsBracket hostname.data then hostname
  else
    let parts := splitOnDot hostname.data
    if parts.length ≤ 2 then hostname
    else String.mk (joinDots (['*'] :: parts.tail))

/-- The rule service's `isInRules(url)`, stated on the hostname of `url`: the
URL's hostname is normalized by `formatPattern` and compared for exact string
equality against each stored rule's pattern. -/
def isInRules (rules : List ProxyRule) (hostname : String) : Bool :=
  if rules.isEmpty then false
  else rules.any fun r => r.pattern == formatPattern hostname

/-- Result of a rule-service mutation: the list passed to `saveRules` (or the
unchanged stored list when no save happens), the list returned to the caller,
and whether a save was performed. -/
structure RuleOp where
  stored : List ProxyRule
  returned : List ProxyRule
  persisted : Bool
deriving DecidableEq

/-- The rule service's `addRule`: the rule is appended and saved unless a rule
with the same pattern already exists, in which case nothing changes; the
(possibly updated) list is returned. -/
def addRule (rules : List ProxyRule) (rule : ProxyRule) : RuleOp :=
  if rules.any (fun r => r.pattern == rule.pattern) then
    { stored := rules, returned := rules, persisted := false }
  else
    { stored := rules ++ [rule], returned := rules ++ [rule], persisted := true }

/-- The rule service's `addRules`: the batch is filtered to the rules whose
pattern is not already stored, and the survivors are appended and saved when
there are any. -/
def addRules (rules : List ProxyRule) (batch : List ProxyRule) : RuleOp :=
  let existingPatterns := rules.map fun r => r.pattern
  let newRules := batch.filter fun r => !(existingPatterns.contains r.pattern)
  if newRules.isEmpty then
    { stored := rules, returned := rules, persisted := false }
  else
    { stored := rules ++ newRules, returned := rules ++ newRules, persisted := true }

/-- A `Partial<ProxyRule>` as accepted by `updateProxyRule`: each field may be
absent. -/
structure RulePatch where
  id : Option String := none
  pattern : Option String := none

/-- The spread merge `{...rule, ...updatedRule, id: ruleId}`: the patch's
pattern wins when present, and the `id` is forced back to `ruleId` (so the
patch can never change it). -/
def mergeRule (r : ProxyRule) (ruleId : String) (patch : RulePatch) : ProxyRule :=
  { id := ruleId, pattern := patch.pattern.getD r.pattern }

/-- The rule service's `updateProxyRule`: the first rule whose id matches
(`findIndex`) is replaced by the merged rule and the list saved; the boolean
reports whether a matching rule was found. -/
def updateProxyRule : List ProxyRule → String → RulePatch → List ProxyRule × Bool
  | [], _, _ => ([], false)
  | r :: rest, ruleId, patch =>
    if r.id == ruleId then (mergeRule r ruleId patch :: rest, true)
    else
      match updateProxyRule rest ruleId patch with
      | (rest2, found) => (r :: rest2, found)

/-- The rule service's `deleteRule`: rules with the given id are filtered out,
and the result is saved only when the length changed. -/
def deleteRule (rules : List ProxyRule) (ruleId : String) : RuleOp :=
  let updated := rules.filter fun r => !(r.id == ruleId)
  if updated.length == rules.length then
    { stored := rules, returned := updated, persisted := false }
  else
    { stored := updated, returned := updated, persisted := true }

/-- Lookup in an insertion-ordered association list, modelling
`Map.prototype.get`. -/
def mapGet {β : Type} : List (String × β) → String → Option β
  | [], _ => none
  | (k0, v0) :: rest, k => if k0 = k then some v0 else mapGet rest k

/-- Update in an insertion-ordered association list, modelling
`Map.prototype.set`: an existing binding is overwritten in place, a new key is
appended at the end. -/
def mapSet {β : Type} : List (String × β) → String → β → List (String × β)
  | [], k, v => [(k, v)]
  | (k0, v0) :: rest, k, v =>
    if k0 = k then (k, v) :: rest else (k0, v0) :: mapSet rest k v

/-- Removal from an association list, modelling `Map.prototype.delete` (keys
are unique in a JavaScript `Map`, so removing every binding of the key is the
same as removing the one binding). -/
def mapDelete {β : Type} : List (String × β) → String → List (String × β)
  | [], _ => []
  | (k0, v0) :: rest, k =>
    if k0 = k then mapDelete rest k else (k0, v0) :: mapDelete rest k

/-- A pending request (`PendingRequest` in `types/common`). -/
structure PendingRequest where
  requestId : String
  url : String
  hostname : String
  currentTabHostname : String
  startTime : Nat
deriving DecidableEq

/-- A failed request (`FailedRequest` in `types/common`); the optional fields
are `Option`-valued. -/
structure FailedRequest where
  url : String
  hostname : String
  currentTabHostname : String
  responseTime : Option Nat := none
  error : Option String := none
  timestamp : Nat
  status : Option Nat := none
deriving DecidableEq

/-- The two in-memory maps owned by `RequestMonitorService`. -/
structure MonitorState where
  failedRequestsByHostname : List (String × List FailedRequest) := []
  pendingRequests : List (String × PendingRequest) := []
deriving DecidableEq

/-- `RequestMonitorService.addPendingRequest`. -/
def addPendingRequest (s : MonitorState) (p : PendingRequest) : MonitorState :=
  { s with pendingRequests := mapSet s.pendingRequests p.requestId p }

/-- `RequestMonitorService.removePendingRequest`. -/
def removePendingRequest (s : MonitorState) (requestId : String) : MonitorState :=
  { s with pendingRequests := mapDelete s.pendingRequests requestId }

/-- `RequestMonitorService.getPendingRequest`. -/
def getPendingRequest (s : MonitorState) (requestId : String) : Option PendingRequest :=
  mapGet s.pendingRequests requestId

/-- `RequestMonitorService.getFailedRequestsCurrentTabHostname`:
`this.failedRequestsByHostname.get(currentTabHostname) || []`. -/
def getFailedRequestsCurrentTabHostname (s : MonitorState)
    (currentTabHostname : String) : List FailedRequest :=
  (mapGet s.failedRequestsByHostname currentTabHostname).getD []

/-- `RequestMonitorService.removeFailedRequestsForHostname`. -/
def removeFailedRequestsForHostname (s : MonitorState)
    (currentTabHostname : String) : MonitorState :=
  { s with failedRequestsByHostname := mapDelete s.failedRequestsByHostname currentTabHostname }

/-- `RequestMonitorService.addFailedRequest`: an empty originating hostname is
rejected (`!currentTabHostname`), an entry whose hostname already occurs in the
group is skipped, and otherwise the entry is pushed onto the group. -/
def addFailedRequest (s : MonitorState) (request : FailedRequest) : MonitorState :=
  if request.currentTabHostname = "" then s
  else
    let failedRequests :=
      (mapGet s.failedRequestsByHostname request.currentTabHostname).getD []
    if failedRequests.any (fun r => r.hostname == request.hostname) then s
    else
      { s with failedRequestsByHostname :=
          (mapSet s.failedRequestsByHostname request.currentTabHostname
            (failedRequests ++ [request])) }

/-- `RequestMonitorService.updateFailedRequestsForCurrentTab`: entries whose
hostname is in `hostnames` are dropped from the group; the key is deleted
entirely when no entry remains. -/
def updateFailedRequestsForCurrentTab (s : MonitorState)
    (currentTabHostname : String) (hostnames : List String) : MonitorState :=
  let failedRequests := getFailedRequestsCurrentTabHostname s currentTabHostname
  let remainingRequests := failedRequests.filter fun r => !(hostnames.contains r.hostname)
  if remainingRequests.length > 0 then
    { s with failedRequestsByHostname :=
        mapSet s.failedRequestsByHostname currentTabHostname remainingRequests }
  else
    { s with failedRequestsByHostname :=
        mapDelete s.failedRequestsByHostname currentTabHostname }

/-- The fixed allow-list of transient error codes the error listener ignores. -/
def ignoredErrors : List String :=
  ["net::ERR_ABORTED", "net::ERR_INTERNET_DISCONNECTED",
   "net::ERR_CONNECTION_ABORTED", "net::ERR_BLOCKED_BY_CLIENT",
   "net::ERR_CACHE_MISS"]

/-- The `chrome.webRequest.onCompleted` listener of `background.ts`: the
pending entry (if any) is inspected, a slow response (elapsed time above the
threshold) records a `FailedRequest` with the wildcard-normalized hostname
under the originating page's hostname, and the pending entry is removed in the
`finally` block regardless of outcome.  `now` stands for `Date.now()`; the
elapsed time is `now - startTime`. -/
def onCompleted (settings : Option GeneralSettings) (now : Nat)
    (requestId : String) (statusCode : Nat) (s : MonitorState) : MonitorState :=
  let s1 :=
    match getPendingRequest s requestId, settings with
    | some p, some gs =>
      let responseTime := now - p.startTime
      if responseTime > gs.responseTimeThreshold then
        addFailedRequest s
          { url := p.url
            hostname := formatPattern p.hostname
            currentTabHostname := p.currentTabHostname
            responseTime := some responseTime
            timestamp := now
            status := some statusCode }
      else s
    | _, _ => s
  removePendingRequest s1 requestId

/-- The `chrome.webRequest.onErrorOccurred` listener of `background.ts`: an
error from the ignored list returns early — before the pending entry is
removed; otherwise, when a pending entry exists, a `FailedRequest` is recorded
unless the request's hostname is already covered by a rule, and the pending
entry is removed in the `finally` block. -/
def onErrorOccurred (rules : List ProxyRule) (now : Nat) (requestId : String)
    (error : String) (s : MonitorState) : MonitorState :=
  if ignoredErrors.contains error then s
  else
    match getPendingRequest s requestId with
    | none => s
    | some p =>
      let s1 :=
        if isInRules rules p.hostname then s
        else
          addFailedRequest s
            { url := p.url
              hostname := formatPattern p.hostname
              currentTabHostname := p.currentTabHostname
              error := some error
              timestamp := now }
      removePendingRequest s1 requestId

/-- The key-value storage collaborator behind `utils/storage.ts`.  `kv` is the
stored data (each key holds a list of rules: the legacy key holds the whole
list, chunk keys hold up to 100 rules).  The `fail*` lists name the keys whose
`get`/`set`/`remove` calls reject, modelling storage failures injected by the
host platform. -/
structure KvStore where
  kv : List (String × List ProxyRule) := []
  failGet : List String := []
  failSet : List String := []
  failRemove : List String := []
deriving DecidableEq

/-- A storage computation: it either rejects with an error message or resolves
with a value, and in both cases leaves the store in its resulting state. -/
def StoreM (α : Type) : Type := KvStore → Except String α × KvStore

/-- `storage.get(key)`: rejects when the platform fails the read, otherwise
resolves with the stored value (`none` models `undefined`). -/
def sget (k : String) : StoreM (Option (List ProxyRule)) := fun st =>
  if st.failGet.contains k then (Except.error "storage get error", st)
  else (Except.ok (mapGet st.kv k), st)

/-- `storage.set(key, value)`: rejects when the platform fails the write,
otherwise stores the value. -/
def sset (k : String) (v : List ProxyRule) : StoreM Unit := fun st =>
  if st.failSet.contains k then (Except.error "storage set error", st)
  else (Except.ok (), { st with kv := mapSet st.kv k v })

/-- `storage.remove(key)`: rejects when the platform fails the removal,
otherwise deletes the key. -/
def sremove (k : String) : StoreM Unit := fun st =>
  if st.failRemove.contains k then (Except.error "storage remove error", st)
  else (Except.ok (), { st with kv := mapDelete st.kv k })

/-- `STORAGE_KEYS.PROXY_RULES`, the legacy single key. -/
def legacyKey : String := "proxyRules"

/-- The chunk key `` `${STORAGE_KEYS.PROXY_RULES}_${i}` ``. -/
def chunkKey (i : Nat) : String := "proxyRules_" ++ natToStr i

/-- `PROXY_RULES_CHUNK_COUNT`. -/
def chunkCount : Nat := 50

/-- `RULES_PER_KEY`. -/
def rulesPerKey : Nat := 100

/-- The chunk-writing loop of `saveProxyRules`: for each index, the 100-rule
slice `rules.slice(i*100, i*100+100)` is written; a failed write rejects the
whole save (the surrounding `catch` logs and rethrows). -/
def writeChunks (rules : List ProxyRule) : List Nat → StoreM Unit
  | [] => fun st => (Except.ok (), st)
  | i :: rest => fun st =>
    match sset (chunkKey i) ((rules.drop (i * rulesPerKey)).take rulesPerKey) st with
    | (Except.error e, st1) => (Except.error e, st1)
    | (Except.ok _, st1) => writeChunks rules rest st1

/-- The cleanup loop of `saveProxyRules`: unused chunk keys are probed in order
and removed until a missing key stops the scan; failures reject the save. -/
def cleanupChunks : List Nat → StoreM Unit
  | [] => fun st => (Except.ok (), st)
  | i :: rest => fun st =>
    match sget (chunkKey i) st with
    | (Except.error e, st1) => (Except.error e, st1)
    | (Except.ok none, st1) => (Except.ok (), st1)
    | (Except.ok (some _), st1) =>
      match sremove (chunkKey i) st1 with
      | (Except.error e, st2) => (Except.error e, st2)
      | (Except.ok _, st2) => cleanupChunks rest st2

/-- `saveProxyRules(rules)` from `utils/storage.ts`: `totalKeys` is
`Math.ceil(rules.length / 100)`; when it exceeds the 50-chunk capacity the
function only warns and returns successfully without writing anything;
otherwise the chunks are written and stale chunk keys cleaned up.  The `catch`
block rethrows, so errors propagate unchanged. -/
def saveProxyRules (rules : List ProxyRule) : StoreM Unit := fun st =>
  let totalKeys := (rules.length + (rulesPerKey - 1)) / rulesPerKey
  if totalKeys > chunkCount then (Except.ok (), st)
  else
    match writeChunks rules (List.range totalKeys) st with
    | (Except.error e, st1) => (Except.error e, st1)
    | (Except.ok _, st1) =>
      if totalKeys < chunkCount then
        cleanupChunks (List.range' totalKeys (chunkCount - totalKeys)) st1
      else (Except.ok (), st1)

/-- The chunk-reading loop of `getProxyRules`: chunks are read in order and
accumulated until a missing or empty chunk stops the scan; a failed read
rejects (to be caught by the surrounding `try`). -/
def readChunks (acc : List ProxyRule) : List Nat → StoreM (List ProxyRule)
  | [] => fun st => (Except.ok acc, st)
  | i :: rest => fun st =>
    match sget (chunkKey i) st with
    | (Except.error e, st1) => (Except.error e, st1)
    | (Except.ok none, st1) => (Except.ok acc, st1)
    | (Except.ok (some chunk), st1) =>
      if chunk.isEmpty then (Except.ok acc, st1)
      else readChunks (acc ++ chunk) rest st1

/-- The body of `getProxyRules` inside its `try`: a populated legacy key is
migrated (saved as chunks, then removed) and returned; otherwise the chunks are
read and merged. -/
def getProxyRulesBody : StoreM (List ProxyRule) := fun st =>
  match sget legacyKey st with
  | (Except.error e, st1) => (Except.error e, st1)
  | (Except.ok legacy, st1) =>
    match legacy with
    | some l =>
      if l.length > 0 then
        match saveProxyRules l st1 with
        | (Except.error e, st2) => (Except.error e, st2)
        | (Except.ok _, st2) =>
          match sremove legacyKey st2 with
          | (Except.error e, st3) => (Except.error e, st3)
          | (Except.ok _, st3) => (Except.ok l, st3)
      else readChunks [] (List.range chunkCount) st1
    | none => readChunks [] (List.range chunkCount) st1

/-- `getProxyRules()` from `utils/storage.ts`: the body runs under a
`try`/`catch` whose handler logs the error and returns `[]` — a storage
failure is caught and surfaces to the caller as an ordinary empty rule list. -/
def getProxyRules : StoreM (List ProxyRule) := fun st =>
  match getProxyRulesBody st with
  | (Except.error _, st1) => (Except.ok [], st1)
  | (Except.ok rules, st1) => (Except.ok rules, st1)

/-- The rule service's `addRule` as it executes against the storage layer:
rules are fetched with `getProxyRules`, and an unseen pattern is appended and
saved with `saveProxyRules`, whose failure rejects the whole operation. -/
def addRuleM (rule : ProxyRule) : StoreM (List ProxyRule) := fun st =>
  match getProxyRules st with
  | (Except.error e, st1) => (Except.error e, st1)
  | (Except.ok rules, st1) =>
    if rules.any (fun r => r.pattern == rule.pattern) then (Except.ok rules, st1)
    else
      match saveProxyRules (rules ++ [rule]) st1 with
      | (Except.error e, st2) => (Except.error e, st2)
      | (Except.ok _, st2) => (Except.ok (rules ++ [rule]), st2)

/-- The patterns of a rule list, in order. -/
def patterns (rules : List ProxyRule) : List String := rules.map fun r => r.pattern

/-- The ids of a rule list, in order. -/
def ruleIds (rules : List ProxyRule) : List String := rules.map fun r => r.id

/-- Invariant of the failed-request map: within each group, entry hostnames are
pairwise distinct. -/
def FailedInv (s : MonitorState) : Prop :=
  ∀ cth group, mapGet s.failedRequestsByHostname cth = some group →
    (group.map fun r => r.hostname).Nodup

/-- Invariant of the failed-request map: every stored group is non-empty. -/
def NonemptyGroups (s : MonitorState) : Prop :=
  ∀ cth group, mapGet s.failedRequestsByHostname cth = some group → group ≠ []

/-- First rule of the duplicate-pattern batch used against C6. -/
def rX : ProxyRule := { id := "1", pattern := "x.com" }

/-- Second rule of the duplicate-pattern batch used against C6: same pattern,
different id. -/
def rY : ProxyRule := { id := "2", pattern := "x.com" }

/-- A store holding rules under the legacy key whose read fails: used against
C7. -/
def c7BadStore : KvStore :=
  { kv := [(legacyKey, [{ id := "1", pattern := "example.com" }])]
    failGet := [legacyKey] }

/-- An empty store whose write of the first chunk key fails: used for C7's
write-propagation conjunct. -/
def c7FailWriteStore : KvStore := { failSet := [chunkKey 0] }

/-- A pending request used against C8. -/
def pReq : PendingRequest :=
  { requestId := "1"
    url := "https://a.example.com/x"
    hostname := "a.example.com"
    currentTabHostname := "page.com"
    startTime := 0 }

/-- A monitor state with one pending request: used against C8. -/
def c8State : MonitorState := { pendingRequests := [("1", pReq)] }

/-- A failed request recorded under `page.com`: used for C9. -/
def fr0 : FailedRequest :=
  { url := "https://a.example.com/x"
    hostname := "*.example.com"
    currentTabHostname := "page.com"
    responseTime := some 2000
    timestamp := 10
    status := some 200 }

/-- A second failed request with the same wildcard hostname under the same
page: a duplicate of `fr0` for the purposes of deduplication. -/
def fr0dup : FailedRequest :=
  { url := "https://b.example.com/y"
    hostname := "*.example.com"
    currentTabHostname := "page.com"
    responseTime := some 3000
    timestamp := 20
    status := some 500 }

/-- A monitor state with one failed-request group: used for C9's witness. -/
def c9State : MonitorState := { failedRequestsByHostname := [("page.com", [fr0])] }

/-- A failed request with an empty originating hostname: used for C10's
witness. -/
def frEmptyTab : FailedRequest :=
  { url := "https://a.example.com/x"
    hostname := "*.example.com"
    currentTabHostname := ""
    timestamp := 0 }

/-- Anchored matching of a literal token list is case-insensitive equality. -/
theorem globMatch_litToks (d h : List Char) :
    globMatch (litToks d) h = true ↔ d.map Char.toLower = h.map Char.toLower := by
  induction d generalizing h with
  | nil =>
    cases h <;> simp [globMatch, litToks]
  | cons c cs ih =>
    cases h with
    | nil => simp [globMatch, litToks]
    | cons x xs =>
      have hx := ih xs
      simp only [litToks] at hx
      simp [globMatch, litToks, ciChar, hx]

/-- A leading `star` token matches when the rest of the tokens match some
suffix of the input. -/
theorem globMatch_star (ts : List GTok) (h : List Char) :
    globMatch (GTok.star :: ts) h = true ↔
      ∃ t, t <:+ h ∧ globMatch ts t = true := by
  simp only [globMatch, List.any_eq_true, List.mem_tails]

/-- A suffix of the lower-cased input is lower-cased from a suffix of the
input. -/
theorem exists_suffix_of_map_suffix (f : Char → Char) (d h : List Char)
    (hs : d <:+ h.map f) : ∃ t, t <:+ h ∧ t.map f = d := by
  obtain ⟨a, ha⟩ := hs
  refine ⟨h.drop a.length, List.drop_suffix _ _, ?_⟩
  have hlen : a.length ≤ h.length := by
    have := congrArg List.length ha
    simp at this
    omega
  calc (h.drop a.length).map f = (h.map f).drop a.length := by
        rw [List.map_drop]
    _ = (a ++ d).drop a.length := by rw [ha]
    _ = d := List.drop_left a d

/-- Semantics of the `*.`-branch regex `^(.*\.)?D$`: the hostname equals the
domain or ends with a dot followed by the domain, case-insensitively. -/
theorem matchWildcard_starDot (domain : List Char) (hostname : String) :
    matchWildcard (String.mk ('*' :: '.' :: domain)) hostname = true ↔
      (hostname.data.map Char.toLower = domain.map Char.toLower ∨
        ('.' :: domain.map Char.toLower) <:+ hostname.data.map Char.toLower) := by
  have hlitcons : GTok.lit '.' :: litToks domain = litToks ('.' :: domain) := rfl
  have hlow : Char.toLower '.' = '.' := by decide
  simp only [matchWildcard, startsWithStarDot, String.data, List.drop_succ_cons,
    List.drop_zero, if_true, Bool.or_eq_true, hlitcons]
  rw [globMatch_star, globMatch_litToks]
  constructor
  · rintro (⟨t, hts, hmt⟩ | heq)
    · rw [globMatch_litToks, List.map_cons, hlow] at hmt
      right
      rw [hmt]
      exact hts.map Char.toLower
    · left
      exact heq.symm
  · rintro (heq | hsuf)
    · right
      exact heq.symm
    · left
      obtain ⟨t, hts, htm⟩ :=
        exists_suffix_of_map_suffix Char.toLower ('.' :: domain.map Char.toLower)
          hostname.data hsuf
      exact ⟨t, hts, by rw [globMatch_litToks, List.map_cons, hlow, htm]⟩

/-- C1: the decision function of the script built by `generatePacScript`
returns direct connection for every host when settings are absent or the rule
list is empty; otherwise the rules are tried in list order, the first rule
whose compiled test matches the host yields the upper-cased proxy directive
`<SCHEME> <address>:<port>`, and direct connection is returned when no rule
matches.  For rule `*.slow.com` and settings `http 1.2.3.4:8080` the script
routes `x.slow.com` and `slow.com` to `HTTP 1.2.3.4:8080` and `other.com` to
direct. -/
theorem c1_buildConfigScript_decision :
    (∀ rules host, findProxyForURL none rules host = "DIRECT")
    ∧ (∀ gs host, findProxyForURL (some gs) [] host = "DIRECT")
    ∧ (∀ gs rules host r, rules.find? (fun q => pacRuleTest q.pattern host) = some r →
        findProxyForURL (some gs) rules host = proxyDirective gs)
    ∧ (∀ gs rules host, rules.find? (fun q => pacRuleTest q.pattern host) = none →
        findProxyForURL (some gs) rules host = "DIRECT")
    ∧ findProxyForURL (some exSettings) [exRule] "x.slow.com" = "HTTP 1.2.3.4:8080"
    ∧ findProxyForURL (some exSettings) [exRule] "slow.com" = "HTTP 1.2.3.4:8080"
    ∧ findProxyForURL (some exSettings) [exRule] "other.com" = "DIRECT" := by
  refine ⟨fun rules host => rfl, fun gs host => rfl, ?_, ?_, by decide, by decide, by decide⟩
  · intro gs rules host r hf
    cases rules with
    | nil => simp at hf
    | cons a as => simp [findProxyForURL, hf]
  · intro gs rules host hf
    cases rules with
    | nil => simp [findProxyForURL]
    | cons a as => simp [findProxyForURL, hf]

/-- Witness for C1 at a concrete input: the first (and only) rule of the
example rule list matches `slow.com`, so the script returns the proxy
directive. -/
theorem c1_buildConfigScript_decision_witness :
    findProxyForURL (some exSettings) [exRule] "slow.com" = proxyDirective exSettings :=
  c1_buildConfigScript_decision.2.2.1 exSettings [exRule] "slow.com" exRule (by decide)

/-- C2 (evaluation at the failing input): the per-rule test emitted by
`generatePacScript` is tested without `^`/`$` anchors, so for the rule pattern
`*.google.com` the host `evilgoogle.com` — which the Pattern Matcher
`matchWildcard` rejects — passes the PAC script's test, because the compiled
regex `(.*\.)?google\.com` finds `google.com` as a substring. -/
theorem c2_pacRuleTest_unanchored :
    pacRuleTest "*.google.com" "evilgoogle.com" = true
      ∧ matchWildcard "*.google.com" "evilgoogle.com" = false := by
  constructor
  · decide
  · decide

/-- C3: for a `*.`-prefixed pattern over a plain domain (ordinary hostname
characters), `matchWildcard` accepts exactly the hostnames that equal the
domain or end with a dot followed by the domain, case-insensitively; in
particular `*.example.com` matches `a.example.com` and `example.com` but not
`notexample.com`. -/
theorem c3_wildcard_domain_semantics :
    (∀ (domain : List Char) (hostname : String), domain.all hostChar = true →
      (matchWildcard (String.mk ('*' :: '.' :: domain)) hostname = true ↔
        (hostname.data.map Char.toLower = domain.map Char.toLower ∨
          ('.' :: domain.map Char.toLower) <:+ hostname.data.map Char.toLower)))
    ∧ matchWildcard "*.example.com" "a.example.com" = true
    ∧ matchWildcard "*.example.com" "example.com" = true
    ∧ matchWildcard "*.example.com" "notexample.com" = false := by
  refine ⟨fun domain hostname _ => matchWildcard_starDot domain hostname,
    by decide, by decide, by decide⟩

/-- Witness for C3 at a concrete input: the domain `example.com` is plain, and
the subdomain hostname `a.example.com` is accepted. -/
theorem c3_wildcard_domain_semantics_witness :
    matchWildcard (String.mk ('*' :: '.' :: "example.com".data)) "a.example.com" = true :=
  (c3_wildcard_domain_semantics.1 "example.com".data "a.example.com" (by decide)).mpr
    (Or.inr (by decide))

/-- Splitting at dots never produces an empty part list. -/
theorem splitOnDot_ne_nil (l : List Char) : splitOnDot l ≠ [] := by
  induction l with
  | nil => simp [splitOnDot]
  | cons c rest ih =>
    by_cases hc : c = '.'
    · simp [splitOnDot, hc]
    · simp only [splitOnDot, if_neg hc]
      cases hs : splitOnDot rest with
      | nil => simp
      | cons p ps => simp

/-- Joining with dots undoes splitting at dots. -/
theorem joinDots_splitOnDot (l : List Char) : joinDots (splitOnDot l) = l := by
  induction l with
  | nil => rfl
  | cons c rest ih =>
    by_cases hc : c = '.'
    · subst hc
      simp only [splitOnDot, if_pos rfl]
      obtain ⟨q, qs, hS⟩ := List.exists_cons_of_ne_nil (splitOnDot_ne_nil rest)
      rw [hS]
      rw [hS] at ih
      simpa [joinDots] using ih
    · simp only [splitOnDot, if_neg hc]
      obtain ⟨p, ps, hS⟩ := List.exists_cons_of_ne_nil (splitOnDot_ne_nil rest)
      rw [hS]
      rw [hS] at ih
      cases ps with
      | nil => simpa [joinDots] using ih
      | cons p2 ps2 => simpa [joinDots] using ih

/-- No part produced by splitting at dots contains a dot. -/
theorem not_dot_mem_splitOnDot (l : List Char) : ∀ p ∈ splitOnDot l, '.' ∉ p := by
  induction l with
  | nil =>
    intro p hp
    simp [splitOnDot] at hp
    simp [hp]
  | cons c rest ih =>
    intro p hp
    by_cases hc : c = '.'
    · simp only [splitOnDot, if_pos hc] at hp
      rcases List.mem_cons.mp hp with h | h
      · simp [h]
      · exact ih p h
    · simp only [splitOnDot, if_neg hc] at hp
      obtain ⟨q, qs, hS⟩ := List.exists_cons_of_ne_nil (splitOnDot_ne_nil rest)
      rw [hS] at hp
      rcases List.mem_cons.mp hp with h | h
      · subst h
        intro hmem
        rcases List.mem_cons.mp hmem with h2 | h2
        · exact hc h2.symm
        · exact ih q (by rw [hS]; exact List.mem_cons_self q qs) h2
      · exact ih p (by rw [hS]; exact List.mem_cons_of_mem q h)

/-- C4: `formatPattern` (the code's `normalizeToWildcard`) replaces the
leftmost label by `*` on hostnames with three or more dot-separated labels that
are not IPv4-shaped (the service's `IPV4PATTERN`) and not IPv6 literals (no
`:`, not starting with `[`); all other hostnames are returned unchanged.  In
particular `www.example.com` becomes `*.example.com`, while `example.com` and
`192.168.1.1` are unchanged. -/
theorem c4_normalizeToWildcard :
    (∀ hostname : String, 3 ≤ (splitOnDot hostname.data).length →
        ipv4Shaped hostname.data = false →
        hostname.data.contains ':' = false →
        headIsBracket hostname.data = false →
        (formatPattern hostname).data =
          '*' :: hostname.data.dropWhile (fun c => !(c = '.')))
    ∧ (∀ hostname : String,
        (splitOnDot hostname.data).length ≤ 2 ∨ ipv4Shaped hostname.data = true ∨
          hostname.data.contains ':' = true ∨ headIsBracket hostname.data = true →
        formatPattern hostname = hostname)
    ∧ formatPattern "www.example.com" = "*.example.com"
    ∧ formatPattern "example.com" = "example.com"
    ∧ formatPattern "192.168.1.1" = "192.168.1.1" := by
  refine ⟨?_, ?_, by decide, by decide, by decide⟩
  · intro h h3 hip hcol hbr
    obtain ⟨p0, t0, hP⟩ := List.exists_cons_of_ne_nil (splitOnDot_ne_nil h.data)
    have ht0 : t0 ≠ [] := by
      intro hnil
      rw [hP, hnil] at h3
      simp at h3
    obtain ⟨q, qs, hT⟩ := List.exists_cons_of_ne_nil ht0
    have hlen : ¬ (splitOnDot h.data).length ≤ 2 := by omega
    have hdata : h.data = p0 ++ '.' :: joinDots (q :: qs) := by
      conv_lhs => rw [← joinDots_splitOnDot h.data]
      rw [hP, hT]
      simp [joinDots]
    have hp0 : ∀ c ∈ p0, (fun c => !(c = '.')) c = true := by
      intro c hcmem
      have : ¬ c = '.' := by
        intro hce
        exact not_dot_mem_splitOnDot h.data p0
          (by rw [hP]; exact List.mem_cons_self p0 t0) (hce ▸ hcmem)
      simp [this]
    have hdrop : h.data.dropWhile (fun c => !(c = '.')) = '.' :: joinDots (q :: qs) := by
      rw [hdata, List.dropWhile_append_of_pos hp0]
      simp
    have hqs : ¬ qs = [] := by
      intro hqv
      rw [hP, hT, hqv] at h3
      simp at h3
    simp only [formatPattern, hip, hcol, hbr, hP, hT, List.tail_cons]
    rw [hdrop]
    simp [joinDots, hqs]
  · intro h hcase
    simp only [formatPattern]
    by_cases hip : ipv4Shaped h.data = true
    · simp [hip]
    · rw [Bool.not_eq_true] at hip
      by_cases hcol : h.data.contains ':' = true
      · simp only [hip, hcol]
        simp
      · rw [Bool.not_eq_true] at hcol
        by_cases hbr : headIsBracket h.data = true
        · simp only [hip, hcol, hbr]
          simp
        · rw [Bool.not_eq_true] at hbr
          have hlen : (splitOnDot h.data).length ≤ 2 := by
            rcases hcase with h1 | h1 | h1 | h1
            · exact h1
            · exact absurd h1 (by simp [hip])
            · exact absurd h1 (by rw [hcol]; simp)
            · exact absurd h1 (by simp [hbr])
          simp only [hip, hcol, hbr]
          simp [hlen]

/-- Witness for C4 at a concrete input: `www.example.com` has three labels, is
not an IP literal, and its leftmost label is replaced by `*`. -/
theorem c4_normalizeToWildcard_witness :
    (formatPattern "www.example.com").data =
      '*' :: "www.example.com".data.dropWhile (fun c => !(c = '.')) :=
  c4_normalizeToWildcard.1 "www.example.com" (by decide) (by decide) (by decide) (by decide)

/-- C5: `addRule` on a rule whose pattern already occurs in the stored list
(exact string equality) is a no-op — the stored list, the returned list and
the rule count are unchanged and nothing is persisted; on a fresh pattern the
rule is appended, persisted and the updated list returned. -/
theorem c5_addRule_dedup :
    (∀ rules rule, rules.any (fun r => r.pattern == rule.pattern) = true →
        addRule rules rule = ⟨rules, rules, false⟩
          ∧ (addRule rules rule).stored.length = rules.length)
    ∧ (∀ rules rule, rules.any (fun r => r.pattern == rule.pattern) = false →
        addRule rules rule = ⟨rules ++ [rule], rules ++ [rule], true⟩) := by
  constructor
  · intro rules rule hdup
    simp [addRule, hdup]
  · intro rules rule hnew
    simp [addRule, hnew]

/-- Witness for C5 at a concrete input: adding a second rule with the pattern
`*.slow.com` to a list already containing it changes nothing and persists
nothing. -/
theorem c5_addRule_dedup_witness :
    addRule [exRule] { id := "r2", pattern := "*.slow.com" } = ⟨[exRule], [exRule], false⟩
      ∧ (addRule [exRule] { id := "r2", pattern := "*.slow.com" }).stored.length =
        [exRule].length :=
  c5_addRule_dedup.1 [exRule] { id := "r2", pattern := "*.slow.com" } (by decide)

/-- Patterns of the rules returned by `updateProxyRule` either already occur in
the input or come from the patch. -/
theorem updateProxyRule_mem_patterns (rules : List ProxyRule) (rid : String)
    (patch : RulePatch) :
    ∀ q ∈ (updateProxyRule rules rid patch).1,
      q.pattern ∈ patterns rules ∨ patch.pattern = some q.pattern := by
  induction rules with
  | nil =>
    intro q hq
    simp [updateProxyRule] at hq
  | cons r rest ih =>
    intro q hq
    simp only [updateProxyRule] at hq
    by_cases hid : (r.id == rid) = true
    · rw [if_pos hid] at hq
      rcases List.mem_cons.mp hq with h | h
      · subst h
        cases hpp : patch.pattern with
        | none =>
          left
          simp only [patterns, List.mem_map]
          exact ⟨r, List.mem_cons_self r rest, by simp [mergeRule, hpp]⟩
        | some p =>
          right
          simp [mergeRule, hpp]
      · left
        simp only [patterns, List.mem_map]
        exact ⟨q, List.mem_cons_of_mem r h, rfl⟩
    · rw [if_neg hid] at hq
      rcases hu : updateProxyRule rest rid patch with ⟨rest2, found⟩
      rw [hu] at hq
      simp only [] at hq
      rcases List.mem_cons.mp hq with h | h
      · subst h
        left
        simp only [patterns, List.mem_map]
        exact ⟨q, List.mem_cons_self q rest, rfl⟩
      · rcases ih q (by rw [hu]; exact h) with hc | hc
        · left
          simp only [patterns, List.map_cons]
          exact List.mem_cons_of_mem _ (by simpa [patterns] using hc)
        · right
          exact hc

/-- `updateProxyRule` keeps patterns pairwise distinct when rule ids are unique
and the patch's pattern does not collide with another rule's pattern. -/
theorem updateProxyRule_patterns_nodup (rules : List ProxyRule) (rid : String)
    (patch : RulePatch) (hids : (ruleIds rules).Nodup) (hnd : (patterns rules).Nodup)
    (hp : ∀ p, patch.pattern = some p → ∀ r2 ∈ rules, (r2.id == rid) = false →
      ¬ r2.pattern = p) :
    (patterns (updateProxyRule rules rid patch).1).Nodup := by
  induction rules with
  | nil => simp [updateProxyRule, patterns]
  | cons r rest ih =>
    have hndr : r.pattern ∉ patterns rest ∧ (patterns rest).Nodup := by
      have := by simpa [patterns] using hnd
      exact List.nodup_cons.mp (by simpa [patterns] using hnd)
    have hidr : r.id ∉ ruleIds rest ∧ (ruleIds rest).Nodup :=
      List.nodup_cons.mp (by simpa [ruleIds] using hids)
    simp only [updateProxyRule]
    by_cases hid : (r.id == rid) = true
    · rw [if_pos hid]
      have hnotin : (mergeRule r rid patch).pattern ∉ patterns rest := by
        cases hpp : patch.pattern with
        | none =>
          simpa [mergeRule, hpp] using hndr.1
        | some p =>
          simp only [mergeRule, hpp, Option.getD_some]
          intro hmem
          simp only [patterns, List.mem_map] at hmem
          obtain ⟨r2, hr2, he⟩ := hmem
          have hrid : r.id = rid := by simpa using hid
          have hr2id : (r2.id == rid) = false := by
            by_contra hcon
            rw [Bool.not_eq_false] at hcon
            have h2 : r2.id = rid := by simpa using hcon
            apply hidr.1
            simp only [ruleIds, List.mem_map]
            exact ⟨r2, hr2, by rw [h2, hrid]⟩
          exact hp p hpp r2 (List.mem_cons_of_mem r hr2) hr2id he
      simp only [patterns, List.map_cons, List.nodup_cons]
      exact ⟨by simpa [patterns] using hnotin, by simpa [patterns] using hndr.2⟩
    · rw [if_neg hid]
      rcases hu : updateProxyRule rest rid patch with ⟨rest2, found⟩
      show (patterns (r :: rest2)).Nodup
      have hidf : (r.id == rid) = false := by
        rw [← Bool.not_eq_true]
        exact hid
      have hndrest2 : (patterns rest2).Nodup := by
        have := ih hidr.2 hndr.2
          (fun p hpp r2 hr2 hf => hp p hpp r2 (List.mem_cons_of_mem r hr2) hf)
        rw [hu] at this
        exact this
      have hrnot : r.pattern ∉ patterns rest2 := by
        intro hmem
        simp only [patterns, List.mem_map] at hmem
        obtain ⟨q, hq, he⟩ := hmem
        rcases updateProxyRule_mem_patterns rest rid patch q (by rw [hu]; exact hq)
          with hc | hc
        · exact hndr.1 (he ▸ hc)
        · exact hp q.pattern hc r (List.mem_cons_self r rest) hidf he.symm
      simp only [patterns, List.map_cons, List.nodup_cons]
      exact ⟨by simpa [patterns] using hrnot, by simpa [patterns] using hndrest2⟩

/-- C6 (counterexample): `addRules` filters the batch only against the stored
patterns, not against itself, so a batch with an internal duplicate pattern —
here two rules with pattern `x.com` added to an empty store — leaves the
stored rule set with a repeated pattern, falsifying the claimed invariant. -/
theorem c6_counterexample :
    ¬ (patterns (addRules [] [rX, rY]).stored).Nodup := by decide

/-- C6 (amended): starting from pairwise-distinct patterns, `addRule` and
`deleteRule` always preserve distinctness; `addRules` preserves it when the
batch's own patterns are pairwise distinct; `updateProxyRule` preserves it
when rule ids are unique and any pattern set by the patch does not equal
another stored rule's pattern. -/
theorem c6_pattern_uniqueness :
    (∀ rules rule, (patterns rules).Nodup → (patterns (addRule rules rule).stored).Nodup)
    ∧ (∀ rules batch, (patterns rules).Nodup → (patterns batch).Nodup →
        (patterns (addRules rules batch).stored).Nodup)
    ∧ (∀ rules rid, (patterns rules).Nodup → (patterns (deleteRule rules rid).stored).Nodup)
    ∧ (∀ rules rid patch, (ruleIds rules).Nodup → (patterns rules).Nodup →
        (∀ p, patch.pattern = some p → ∀ r2 ∈ rules, (r2.id == rid) = false →
          ¬ r2.pattern = p) →
        (patterns (updateProxyRule rules rid patch).1).Nodup) := by
  refine ⟨?_, ?_, ?_, fun rules rid patch hids hnd hp =>
    updateProxyRule_patterns_nodup rules rid patch hids hnd hp⟩
  · intro rules rule hnd
    by_cases hdup : rules.any (fun r => r.pattern == rule.pattern) = true
    · simpa [addRule, hdup] using hnd
    · rw [Bool.not_eq_true] at hdup
      have hmem : rule.pattern ∉ patterns rules := by
        intro hm
        simp only [patterns, List.mem_map] at hm
        obtain ⟨r, hr, he⟩ := hm
        have : rules.any (fun r => r.pattern == rule.pattern) = true := by
          rw [List.any_eq_true]
          exact ⟨r, hr, by simp [he]⟩
        rw [this] at hdup
        cases hdup
      simp only [addRule, hdup, Bool.false_eq_true, if_false, patterns, List.map_append]
      rw [List.nodup_append]
      refine ⟨by simpa [patterns] using hnd, List.nodup_singleton _, ?_⟩
      intro x hx hx2
      simp only [List.map_cons, List.map_nil, List.mem_singleton] at hx2
      exact hmem (hx2 ▸ (by simpa [patterns] using hx))
  · intro rules batch hnd hbatch
    simp only [addRules]
    split
    · simpa [patterns] using hnd
    · simp only [patterns, List.map_append]
      rw [List.nodup_append]
      refine ⟨by simpa [patterns] using hnd, ?_, ?_⟩
      · exact ((List.filter_sublist batch).map (fun r => r.pattern)).nodup
          (by simpa [patterns] using hbatch)
      · intro x hx hx2
        simp only [List.mem_map] at hx2
        obtain ⟨r, hr, he⟩ := hx2
        have hrf := List.of_mem_filter hr
        rw [Bool.not_eq_true'] at hrf
        have hcmem : (List.map (fun q => q.pattern) rules).contains r.pattern = true := by
          rw [List.contains_iff_exists_mem_beq]
          exact ⟨x, hx, by simp [he]⟩
        rw [hcmem] at hrf
        cases hrf
  · intro rules rid hnd
    simp only [deleteRule]
    split
    · simpa [patterns] using hnd
    · exact ((List.filter_sublist rules).map (fun r => r.pattern)).nodup
        (by simpa [patterns] using hnd)

/-- Witness for C6 at a concrete input: adding a fresh rule to a
distinct-pattern list keeps the patterns distinct. -/
theorem c6_pattern_uniqueness_witness :
    (patterns (addRule [exRule] rX).stored).Nodup :=
  c6_pattern_uniqueness.1 [exRule] rX (by decide)

/-- C7 (counterexample): `getProxyRules` wraps its body in a `catch` that
returns `[]`, so on a store whose read of the legacy key fails — while that
key actually holds a rule — the operation resolves successfully with an empty
list instead of rejecting: the read failure is silently masked. -/
theorem c7_counterexample :
    (getProxyRules c7BadStore).1 = Except.ok []
      ∧ mapGet c7BadStore.kv legacyKey = some [{ id := "1", pattern := "example.com" }] :=
  ⟨rfl, rfl⟩

/-- C7 (amended): chunk-write failures inside `saveProxyRules` propagate to the
caller (and through `addRule`), but storage read failures are caught by
`getProxyRules` and masked as an empty rule list, and a rule set larger than
the 50-chunk capacity (5000 rules) is silently dropped: `saveProxyRules`
returns success without writing anything. -/
theorem c7_persistence_failures :
    (∀ st, st.failGet.contains legacyKey = true → getProxyRules st = (Except.ok [], st))
    ∧ (∀ st rules, st.failSet.contains (chunkKey 0) = true → 0 < rules.length →
        rules.length ≤ 5000 →
        (saveProxyRules rules st).1 = Except.error "storage set error")
    ∧ (∀ st rules, rules.length > 5000 → saveProxyRules rules st = (Except.ok (), st))
    ∧ (addRuleM rX c7FailWriteStore).1 = Except.error "storage set error" := by
  refine ⟨?_, ?_, ?_, by rfl⟩
  · intro st h
    have hm : legacyKey ∈ st.failGet := by simpa using h
    simp [getProxyRules, getProxyRulesBody, sget, hm]
  · intro st rules hfail hpos hle
    simp only [saveProxyRules, rulesPerKey, chunkCount]
    have h50 : ¬ (rules.length + (100 - 1)) / 100 > 50 := by omega
    rw [if_neg h50]
    obtain ⟨k, hk⟩ : ∃ k, (rules.length + (100 - 1)) / 100 = k + 1 :=
      ⟨(rules.length + (100 - 1)) / 100 - 1, by omega⟩
    rw [hk, List.range_succ_eq_map]
    simp only [writeChunks, sset, hfail, if_true]
  · intro st rules hbig
    simp only [saveProxyRules, rulesPerKey, chunkCount]
    have h50 : (rules.length + (100 - 1)) / 100 > 50 := by omega
    rw [if_pos h50]

/-- Witness for C7 at a concrete input: on the store whose legacy-key read
fails, `getProxyRules` resolves with the empty list and an unchanged store. -/
theorem c7_persistence_failures_witness :
    getProxyRules c7BadStore = (Except.ok [], c7BadStore) :=
  c7_persistence_failures.1 c7BadStore (by decide)

/-- Deleting a key removes its binding. -/
theorem mapGet_mapDelete_self {β : Type} (m : List (String × β)) (k : String) :
    mapGet (mapDelete m k) k = none := by
  induction m with
  | nil => rfl
  | cons kv rest ih =>
    obtain ⟨k0, v0⟩ := kv
    by_cases h : k0 = k
    · simp [mapDelete, h, ih]
    · simp [mapDelete, mapGet, h, ih]

/-- Deleting a key leaves other bindings unchanged. -/
theorem mapGet_mapDelete_ne {β : Type} (m : List (String × β)) (k k2 : String)
    (h : ¬ k = k2) : mapGet (mapDelete m k) k2 = mapGet m k2 := by
  induction m with
  | nil => rfl
  | cons kv rest ih =>
    obtain ⟨k0, v0⟩ := kv
    by_cases h0 : k0 = k
    · subst h0
      simp [mapDelete, mapGet, h, ih]
    · simp only [mapDelete, if_neg h0]
      by_cases h2 : k0 = k2
      · simp [mapGet, h2]
      · simp [mapGet, h2, ih]

/-- Setting a key binds it to the new value. -/
theorem mapGet_mapSet_self {β : Type} (m : List (String × β)) (k : String) (v : β) :
    mapGet (mapSet m k v) k = some v := by
  induction m with
  | nil => simp [mapSet, mapGet]
  | cons kv rest ih =>
    obtain ⟨k0, v0⟩ := kv
    by_cases h : k0 = k
    · simp [mapSet, h, mapGet]
    · simp [mapSet, mapGet, h, ih]

/-- Setting a key leaves other bindings unchanged. -/
theorem mapGet_mapSet_ne {β : Type} (m : List (String × β)) (k k2 : String) (v : β)
    (h : ¬ k = k2) : mapGet (mapSet m k v) k2 = mapGet m k2 := by
  induction m with
  | nil => simp [mapSet, mapGet, h]
  | cons kv rest ih =>
    obtain ⟨k0, v0⟩ := kv
    by_cases h0 : k0 = k
    · subst h0
      simp [mapSet, mapGet, h]
    · simp only [mapSet, if_neg h0]
      by_cases h2 : k0 = k2
      · simp [mapGet, h2]
      · simp [mapGet, h2, ih]

/-- C8 (counterexample): an error event whose code is on the ignored list —
here `net::ERR_ABORTED` for the tracked request `1` — returns early without
touching the pending map, so the pending entry survives the error event,
falsifying the claim that every completion or error destroys it. -/
theorem c8_counterexample :
    getPendingRequest (onErrorOccurred [] 5 "1" "net::ERR_ABORTED" c8State) "1" = some pReq := by
  decide

/-- C8 (amended): a completion event always clears its pending entry (the
removal runs in `finally`); an error event clears it whenever the error code is
not on the ignored list — whether or not a failure is recorded; an error from
the ignored list leaves the whole monitor state, including the pending entry,
unchanged. -/
theorem c8_pending_lifecycle :
    (∀ settings now requestId statusCode s,
        getPendingRequest (onCompleted settings now requestId statusCode s) requestId = none)
    ∧ (∀ rules now requestId err s, ignoredErrors.contains err = false →
        getPendingRequest (onErrorOccurred rules now requestId err s) requestId = none)
    ∧ (∀ rules now requestId err s, ignoredErrors.contains err = true →
        onErrorOccurred rules now requestId err s = s) := by
  refine ⟨?_, ?_, ?_⟩
  · intro settings now requestId statusCode s
    simp only [onCompleted, getPendingRequest, removePendingRequest]
    exact mapGet_mapDelete_self _ _
  · intro rules now requestId err s h
    simp only [onErrorOccurred, getPendingRequest, h, Bool.false_eq_true, if_false]
    cases hm : mapGet s.pendingRequests requestId with
    | none => exact hm
    | some p =>
      simp only [removePendingRequest]
      exact mapGet_mapDelete_self _ _
  · intro rules now requestId err s h
    have hm : err ∈ ignoredErrors := by simpa using h
    simp [onErrorOccurred, hm]

/-- Witness for C8 at a concrete input: a non-ignored error
(`net::ERR_CONNECTION_REFUSED`) on the tracked request clears the pending
entry. -/
theorem c8_pending_lifecycle_witness :
    getPendingRequest (onErrorOccurred [] 5 "1" "net::ERR_CONNECTION_REFUSED" c8State) "1" =
      none :=
  c8_pending_lifecycle.2.1 [] 5 "1" "net::ERR_CONNECTION_REFUSED" c8State (by decide)

/-- The duplicate check of `addFailedRequest` succeeds exactly when the
hostname already occurs in the group. -/
theorem any_hostname_eq (g : List FailedRequest) (hn : String) :
    g.any (fun q => q.hostname == hn) = true ↔ hn ∈ g.map fun q => q.hostname := by
  rw [List.any_eq_true]
  constructor
  · rintro ⟨q, hq, he⟩
    exact List.mem_map.mpr ⟨q, hq, by simpa using he⟩
  · intro hm
    obtain ⟨q, hq, he⟩ := List.mem_map.mp hm
    exact ⟨q, hq, by simp [he]⟩

/-- `addFailedRequest` preserves hostname-distinctness of every group. -/
theorem addFailedRequest_FailedInv (s : MonitorState) (r : FailedRequest)
    (hinv : FailedInv s) : FailedInv (addFailedRequest s r) := by
  by_cases hcth : r.currentTabHostname = ""
  · simpa [addFailedRequest, hcth] using hinv
  · simp only [addFailedRequest, if_neg hcth]
    cases hg : mapGet s.failedRequestsByHostname r.currentTabHostname with
    | none =>
      simp only [hg, Option.getD_none, List.any_nil, Bool.false_eq_true, if_false,
        List.nil_append]
      intro cth2 group2 hget
      by_cases he : r.currentTabHostname = cth2
      · rw [← he, mapGet_mapSet_self] at hget
        cases hget
        simp
      · rw [mapGet_mapSet_ne _ _ _ _ he] at hget
        exact hinv cth2 group2 hget
    | some g =>
      simp only [hg, Option.getD_some]
      by_cases hdup : g.any (fun q => q.hostname == r.hostname) = true
      · rw [if_pos hdup]
        exact hinv
      · rw [if_neg hdup]
        intro cth2 group2 hget
        by_cases he : r.currentTabHostname = cth2
        · rw [← he, mapGet_mapSet_self] at hget
          cases hget
          rw [List.map_append, List.nodup_append]
          refine ⟨hinv _ g hg, by simp, ?_⟩
          intro x hx hx2
          simp only [List.map_cons, List.map_nil, List.mem_singleton] at hx2
          subst hx2
          exact hdup ((any_hostname_eq g r.hostname).mpr hx)
        · rw [mapGet_mapSet_ne _ _ _ _ he] at hget
          exact hinv cth2 group2 hget

/-- After `addFailedRequest` on a state whose groups have distinct hostnames,
the originating page's group holds exactly one entry with the added
hostname. -/
theorem addFailedRequest_count (s : MonitorState) (r : FailedRequest)
    (hinv : FailedInv s) (hcth : ¬ r.currentTabHostname = "") :
    ((getFailedRequestsCurrentTabHostname (addFailedRequest s r)
        r.currentTabHostname).map (fun q => q.hostname)).count r.hostname = 1 := by
  simp only [addFailedRequest, if_neg hcth]
  cases hg : mapGet s.failedRequestsByHostname r.currentTabHostname with
  | none =>
    simp only [hg, Option.getD_none, List.any_nil, Bool.false_eq_true, if_false,
      List.nil_append]
    simp [getFailedRequestsCurrentTabHostname, mapGet_mapSet_self]
  | some g =>
    simp only [hg, Option.getD_some]
    by_cases hdup : g.any (fun q => q.hostname == r.hostname) = true
    · rw [if_pos hdup]
      have hmem : r.hostname ∈ g.map fun q => q.hostname :=
        (any_hostname_eq g r.hostname).mp hdup
      have hnd : (g.map fun q => q.hostname).Nodup := hinv _ g hg
      simp only [getFailedRequestsCurrentTabHostname, hg, Option.getD_some]
      exact List.count_eq_one_of_mem hnd hmem
    · rw [if_neg hdup]
      have hnotmem : r.hostname ∉ g.map fun q => q.hostname := fun hm =>
        hdup ((any_hostname_eq g r.hostname).mpr hm)
      simp only [getFailedRequestsCurrentTabHostname, mapGet_mapSet_self,
        Option.getD_some, List.map_append, List.count_append]
      rw [List.count_eq_zero.mpr hnotmem]
      simp

/-- C9: the failed-request store keeps at most one entry per
(originating-page hostname, hostname) pair: `addFailedRequest` preserves
hostname-distinctness of every group, an add whose hostname already occurs in
the page's group leaves the whole state unchanged, after an add the page's
group holds exactly one entry with that hostname, and a slow completion
(elapsed time above the threshold) leaves exactly one entry with the
wildcard-normalized hostname under the originating page's group. -/
theorem c9_failed_request_dedup :
    (∀ s r, FailedInv s → FailedInv (addFailedRequest s r))
    ∧ (∀ s r, (getFailedRequestsCurrentTabHostname s r.currentTabHostname).any
        (fun q => q.hostname == r.hostname) = true → addFailedRequest s r = s)
    ∧ (∀ s r, FailedInv s → ¬ r.currentTabHostname = "" →
        ((getFailedRequestsCurrentTabHostname (addFailedRequest s r)
            r.currentTabHostname).map (fun q => q.hostname)).count r.hostname = 1)
    ∧ (∀ s gs now requestId statusCode p, FailedInv s →
        getPendingRequest s requestId = some p → ¬ p.currentTabHostname = "" →
        now - p.startTime > gs.responseTimeThreshold →
        ((getFailedRequestsCurrentTabHostname
            (onCompleted (some gs) now requestId statusCode s)
            p.currentTabHostname).map (fun q => q.hostname)).count
          (formatPattern p.hostname) = 1) := by
  refine ⟨fun s r hinv => addFailedRequest_FailedInv s r hinv, ?_,
    fun s r hinv hcth => addFailedRequest_count s r hinv hcth, ?_⟩
  · intro s r hdup
    by_cases hcth : r.currentTabHostname = ""
    · simp [addFailedRequest, hcth]
    · simp only [getFailedRequestsCurrentTabHostname] at hdup
      simp only [addFailedRequest, if_neg hcth]
      rw [if_pos hdup]
  · intro s gs now requestId statusCode p hinv hpend hcth hslow
    simp only [onCompleted, hpend, if_pos hslow]
    exact addFailedRequest_count s
      { url := p.url
        hostname := formatPattern p.hostname
        currentTabHostname := p.currentTabHostname
        responseTime := some (now - p.startTime)
        timestamp := now
        status := some statusCode } hinv hcth

/-- Witness for C9 at a concrete input: re-adding a failed request with the
wildcard hostname `*.example.com` to the page group that already holds one is
a no-op. -/
theorem c9_failed_request_dedup_witness :
    addFailedRequest c9State fr0dup = c9State :=
  c9_failed_request_dedup.2.1 c9State fr0dup (by decide)

/-- C10: the failed-request map never stores an empty group: an add with an
empty originating hostname is rejected outright, `addFailedRequest`,
`removeFailedRequestsForHostname` and `updateFailedRequestsForCurrentTab` all
preserve non-emptiness of every stored group, and under that invariant
`getFailedRequestsCurrentTabHostname` returns `[]` exactly for hostnames with
no stored group. -/
theorem c10_nonempty_groups :
    (∀ s r, r.currentTabHostname = "" → addFailedRequest s r = s)
    ∧ (∀ s r, NonemptyGroups s → NonemptyGroups (addFailedRequest s r))
    ∧ (∀ s h, NonemptyGroups s → NonemptyGroups (removeFailedRequestsForHostname s h))
    ∧ (∀ s h hostnames, NonemptyGroups s →
        NonemptyGroups (updateFailedRequestsForCurrentTab s h hostnames))
    ∧ (∀ s h, NonemptyGroups s →
        (getFailedRequestsCurrentTabHostname s h = [] ↔
          mapGet s.failedRequestsByHostname h = none)) := by
  refine ⟨?_, ?_, ?_, ?_, ?_⟩
  · intro s r hcth
    simp [addFailedRequest, hcth]
  · intro s r hinv
    by_cases hcth : r.currentTabHostname = ""
    · simpa [addFailedRequest, hcth] using hinv
    · simp only [addFailedRequest, if_neg hcth]
      cases hg : mapGet s.failedRequestsByHostname r.currentTabHostname with
      | none =>
        simp only [hg, Option.getD_none, List.any_nil, Bool.false_eq_true, if_false,
          List.nil_append]
        intro cth2 group2 hget
        by_cases he : r.currentTabHostname = cth2
        · rw [← he, mapGet_mapSet_self] at hget
          cases hget
          simp
        · rw [mapGet_mapSet_ne _ _ _ _ he] at hget
          exact hinv cth2 group2 hget
      | some g =>
        simp only [hg, Option.getD_some]
        by_cases hdup : g.any (fun q => q.hostname == r.hostname) = true
        · rw [if_pos hdup]
          exact hinv
        · rw [if_neg hdup]
          intro cth2 group2 hget
          by_cases he : r.currentTabHostname = cth2
          · rw [← he, mapGet_mapSet_self] at hget
            cases hget
            simp
          · rw [mapGet_mapSet_ne _ _ _ _ he] at hget
            exact hinv cth2 group2 hget
  · intro s h hinv
    intro cth2 group2 hget
    simp only [removeFailedRequestsForHostname] at hget
    by_cases he : h = cth2
    · rw [← he, mapGet_mapDelete_self] at hget
      cases hget
    · rw [mapGet_mapDelete_ne _ _ _ he] at hget
      exact hinv cth2 group2 hget
  · intro s h hostnames hinv
    intro cth2 group2 hget
    simp only [updateFailedRequestsForCurrentTab] at hget
    by_cases hrem : ((getFailedRequestsCurrentTabHostname s h).filter
        (fun r => !(hostnames.contains r.hostname))).length > 0
    · rw [if_pos hrem] at hget
      by_cases he : h = cth2
      · rw [← he, mapGet_mapSet_self] at hget
        cases hget
        intro hnil
        rw [hnil] at hrem
        simp at hrem
      · rw [mapGet_mapSet_ne _ _ _ _ he] at hget
        exact hinv cth2 group2 hget
    · rw [if_neg hrem] at hget
      by_cases he : h = cth2
      · rw [← he, mapGet_mapDelete_self] at hget
        cases hget
      · rw [mapGet_mapDelete_ne _ _ _ he] at hget
        exact hinv cth2 group2 hget
  · intro s h hinv
    cases hg : mapGet s.failedRequestsByHostname h with
    | none => simp [getFailedRequestsCurrentTabHostname, hg]
    | some g =>
      simp only [getFailedRequestsCurrentTabHostname, hg, Option.getD_some]
      constructor
      · intro hnil
        exact absurd hnil (hinv h g hg)
      · intro hcon
        cases hcon

/-- Witness for C10 at a concrete input: an entry with an empty originating
hostname is rejected without changing the state. -/
theorem c10_nonempty_groups_witness :
    addFailedRequest {} frEmptyTab = ({} : MonitorState) :=
  c10_nonempty_groups.1 {} frEmptyTab rfl

end PSC
